import Mathlib

/-!
# Verification of the fbneo_libretro ROM browser core

A shallow embedding of the core logic of `fbneo_libretro.py`:
the metadata parsers, the catalog engine (`get_rom_list_cached`), the
filter pipeline (`filter_rom_list`) and the repeat-rate input controller
(the `poll_joystick` handlers), together with theorems settling the
specification claims about them.

Python dictionaries are modelled as association lists with
overwrite-on-insert; filesystem and XML access is abstracted into an
explicit environment record, while all logic of the source functions
themselves is translated directly.
-/

namespace FBNeo

/-! ## Python dictionaries as association lists -/

/-- Lookup in an association list (Python `dict.get` / `in`). -/
def dlookup {K V : Type} [DecidableEq K] : List (K × V) → K → Option V
  | [], _ => none
  | (k', v) :: rest, k => if k' = k then some v else dlookup rest k

/-- Insertion into an association list with Python `dict` semantics:
an existing binding for the key is overwritten, otherwise the new
binding is appended. -/
def dinsert {K V : Type} [DecidableEq K] (d : List (K × V)) (k : K) (v : V) : List (K × V) :=
  if (dlookup d k).isSome then
    d.map (fun p => if p.1 = k then (k, v) else p)
  else
    d ++ [(k, v)]

theorem dlookup_map_overwrite {K V : Type} [DecidableEq K]
    (d : List (K × V)) (k : K) (v : V) (hs : (dlookup d k).isSome) :
    dlookup (d.map (fun p => if p.1 = k then (k, v) else p)) k = some v := by
  induction d with
  | nil => simp [dlookup] at hs
  | cons p rest ih =>
    simp only [List.map_cons]
    by_cases hk : p.1 = k
    · rw [if_pos hk]
      simp [dlookup]
    · rw [if_neg hk]
      have h' : (dlookup rest k).isSome := by
        simpa [dlookup, hk] using hs
      simpa [dlookup, hk] using ih h'

theorem dlookup_map_overwrite_ne {K V : Type} [DecidableEq K]
    (d : List (K × V)) (k k' : K) (v : V) (hne : k ≠ k') :
    dlookup (d.map (fun p => if p.1 = k then (k, v) else p)) k' = dlookup d k' := by
  induction d with
  | nil => simp [dlookup]
  | cons p rest ih =>
    simp only [List.map_cons]
    by_cases hk : p.1 = k
    · rw [if_pos hk]
      have h1 : ¬ k = k' := hne
      have h2 : ¬ p.1 = k' := hk ▸ hne
      simp [dlookup, h1, h2, ih]
    · rw [if_neg hk]
      by_cases hk' : p.1 = k'
      · simp [dlookup, hk']
      · simp [dlookup, hk', ih]

theorem dlookup_append {K V : Type} [DecidableEq K]
    (d e : List (K × V)) (k : K) :
    dlookup (d ++ e) k = ((dlookup d k).map some).getD (dlookup e k) := by
  induction d with
  | nil => simp [dlookup]
  | cons p rest ih =>
    by_cases hk : p.1 = k
    · simp [dlookup, hk]
    · simp [dlookup, hk, ih]

theorem dlookup_dinsert_self {K V : Type} [DecidableEq K]
    (d : List (K × V)) (k : K) (v : V) :
    dlookup (dinsert d k v) k = some v := by
  unfold dinsert
  split
  · rename_i h
    exact dlookup_map_overwrite d k v h
  · rename_i h
    have h0 : dlookup d k = none := by
      cases hd : dlookup d k with
      | none => rfl
      | some w => exact absurd (by simp [hd]) h
    simp [dlookup_append, h0, dlookup]

theorem dlookup_dinsert_ne {K V : Type} [DecidableEq K]
    (d : List (K × V)) (k k' : K) (v : V) (hne : k ≠ k') :
    dlookup (dinsert d k v) k' = dlookup d k' := by
  unfold dinsert
  split
  · exact dlookup_map_overwrite_ne d k k' v hne
  · cases hd : dlookup d k' with
    | none => simp [dlookup_append, hd, dlookup, hne]
    | some w => simp [dlookup_append, hd]

/-! ## String helpers mirroring the Python operations used by the source -/

/-- Prefix test on character lists: `isPrefixChars n h` holds when `n`
is a prefix of `h`. -/
def isPrefixChars : List Char → List Char → Bool
  | [], _ => true
  | _ :: _, [] => false
  | a :: as, b :: bs => a = b && isPrefixChars as bs

/-- Contiguous-substring test on character lists; `pyInChars n h` is the
Python expression `n in h` for strings. -/
def pyInChars (n : List Char) : List Char → Bool
  | [] => n.isEmpty
  | c :: rest => isPrefixChars n (c :: rest) || pyInChars n rest

/-- Python `needle in hay` on strings. -/
def pyIn (needle hay : String) : Bool :=
  pyInChars needle.toList hay.toList

/-- Python `h.endswith(s)`. -/
def endsWithStr (h s : String) : Bool :=
  isPrefixChars s.toList.reverse h.toList.reverse

/-- ASCII lower-casing of one character (Python `str.lower` restricted
to ASCII, which covers every string the source compares). -/
def lowerChar (c : Char) : Char :=
  if 65 ≤ c.toNat ∧ c.toNat ≤ 90 then Char.ofNat (c.toNat + 32) else c

/-- Python `s.lower()`. -/
def toLowerStr (s : String) : String :=
  (s.toList.map lowerChar).asString

/-- Python whitespace (`str.strip` default set, ASCII part). -/
def pySpace (c : Char) : Bool :=
  c = ' ' || c = '\t' || c = '\n' || c = '\r' || c = '\x0b' || c = '\x0c'

/-- Python `s.strip()`. -/
def stripStr (s : String) : String :=
  (((s.toList.dropWhile pySpace).reverse.dropWhile pySpace).reverse).asString

/-- The basename of a path: the part after the last `/`. -/
def basenameChars (cs : List Char) : List Char :=
  (cs.reverse.takeWhile (fun c => c ≠ '/')).reverse

/-- The stem of a file name: everything before the last `.`, except that
a dot in first or last position does not start an extension
(`pathlib.PurePath.stem` semantics). -/
def stemOfName (name : List Char) : List Char :=
  match name.reverse.findIdx? (fun c => c = '.') with
  | none => name
  | some j =>
    let i := name.length - 1 - j
    if 0 < i ∧ i < name.length - 1 then name.take i else name

/-- Python `Path(p).stem`. -/
def pathStem (p : String) : String :=
  (stemOfName (basenameChars p.toList)).asString

/-! ## Metadata parsers

`parse_dat_metadata` walks the `<game>`/`<machine>` records of the DAT
file.  The XML parsing itself is external (`xml.etree.ElementTree`); a
record is modelled by the attributes and child nodes the function reads.
`Option (Option String)` for a child node distinguishes "node absent"
from "node present with `text = None`" from actual text. -/

/-- One `<game>`/`<machine>` record as read by `parse_dat_metadata`. -/
structure GameEntry where
  isbios : Option String
  nameAttr : Option String
  romnameAttr : Option String
  cloneofAttr : Option String
  descriptionNode : Option (Option String)
  yearNode : Option (Option String)
  manufacturerNode : Option (Option String)
deriving DecidableEq

/-- Embeds `node.text.strip() if node is not None and node.text else
dflt`: the Python truthiness test on `.text` treats both `None` and the empty
string as absent. -/
def textOr (node : Option (Option String)) (dflt : String) : String :=
  match node with
  | some (some t) => if t = "" then dflt else stripStr t
  | _ => dflt

/-- Python `a or b` on an optional string attribute (empty string is
falsy). -/
def pyOrStr (a : Option String) (b : String) : String :=
  match a with
  | some s => if s = "" then b else s
  | none => b

/-- Embeds `entry.attrib.get("name") or entry.attrib.get("romname") or
""`. -/
def effName (e : GameEntry) : String :=
  pyOrStr e.nameAttr (pyOrStr e.romnameAttr "")

/-- Tuple `(title, year, manufacturer, is_clone)`. -/
abbrev MetaVal := String × String × String × Bool

/-- Lower-cased ROM stem → metadata tuple. -/
abbrev MetaIndex := List (String × MetaVal)

/-- Lower-cased ROM stem → fallback display title. -/
abbrev TitleIndex := List (String × String)

/-- The contribution of one record to the metadata index: `none` when
the record is skipped (BIOS flag, or empty identifier), otherwise the
key/value pair that is stored. -/
def parseEntry (e : GameEntry) : Option (String × MetaVal) :=
  if e.isbios.getD "no" = "yes" then none
  else
    let name := effName e
    let title := textOr e.descriptionNode name
    let year := textOr e.yearNode ""
    let manuf := textOr e.manufacturerNode ""
    let is_clone := e.cloneofAttr.isSome
    if name = "" then none
    else some (toLowerStr name, (title, year, manuf, is_clone))

/-- Processing of one record inside the `parse_dat_metadata` loop. -/
def parseStep (meta : MetaIndex) (e : GameEntry) : MetaIndex :=
  match parseEntry e with
  | some (k, v) => dinsert meta k v
  | none => meta

/-- Embeds `parse_dat_metadata`: fold the records into a dictionary, skipping
BIOS-flagged and unnamed records. -/
def parse_dat_metadata (entries : List GameEntry) : MetaIndex :=
  entries.foldl parseStep []

/-! ## Catalog engine -/

/-- Tuple `(rom, title, year, manufacturer, is_clone)` — as built by
`get_rom_list_cached`. -/
abbrev RomEntry := String × String × String × String × Bool

/-- The static built-in exclude set `ROM_HIDE_LIST`. -/
def ROM_HIDE_LIST : List String := ["neocdz", "rom_to_hide2"]

/-- The body of the candidate loop of `get_rom_list_cached`
(lines 170–189): the entry appended for one candidate file, or `none`
when the candidate is skipped. -/
def candidateEntry (rom_titles : TitleIndex) (meta : MetaIndex)
    (system_name : String) (rom : String) : Option RomEntry :=
  let stem := pathStem rom
  if ROM_HIDE_LIST.contains (toLowerStr stem) then none
  else if system_name = "SNK Neo-Geo CD" then
    match dlookup meta (toLowerStr stem) with
    | some (title, year, manuf, is_clone) => some (rom, title, year, manuf, is_clone)
    | none => some (rom, (dlookup rom_titles (toLowerStr stem)).getD stem, "", "", false)
  else if meta ≠ [] ∧ dlookup meta (toLowerStr stem) = none then none
  else
    match dlookup meta (toLowerStr stem) with
    | some (title, year, manuf, is_clone) => some (rom, title, year, manuf, is_clone)
    | none => some (rom, (dlookup rom_titles (toLowerStr stem)).getD stem, "", "", false)

/-- The candidate loop of `get_rom_list_cached`: accumulate the
entries of the candidates in order, skipping hidden stems and (for the
standard profile with a non-empty metadata index) stems absent from the
index. -/
def buildRomList (rom_titles : TitleIndex) (meta : MetaIndex)
    (roms : List String) (system_name : String) : List RomEntry :=
  roms.foldl
    (fun rom_list rom =>
      match candidateEntry rom_titles meta system_name rom with
      | some e => rom_list ++ [e]
      | none => rom_list)
    []

/-- Lexicographic `≤` by code point on character lists — the order the
Python string comparison `x[1].lower() <= y[1].lower()` induces on the
sort keys. -/
def lexLe : List Char → List Char → Bool
  | [], _ => true
  | _ :: _, [] => false
  | c :: cs, d :: ds =>
    if c.toNat < d.toNat then true
    else if d.toNat < c.toNat then false
    else lexLe cs ds

/-- The sort key of `sorted(rom_list, key=lambda x: x[1].lower())`. -/
def titleKey (e : RomEntry) : List Char :=
  (toLowerStr e.2.1).toList

/-- Comparison used to sort the catalog. -/
def entryLE (a b : RomEntry) : Bool :=
  lexLe (titleKey a) (titleKey b)

/-- Embeds `sorted(rom_list, key=lambda x: x[1].lower())` — Python's `sorted`
is a stable sort, modelled by `List.mergeSort`. -/
def sortEntries (rom_list : List RomEntry) : List RomEntry :=
  rom_list.mergeSort entryLE

/-! ### Environment and cache

The filesystem and XML reads performed by `get_rom_list_cached` are
abstracted into an environment: each field gives the value the
corresponding external call returns for a path. -/

/-- External world of one catalog build. `romTitles p` is the parsed
result of `load_rom_titles p`; `datEntries p` the record list of the
XML/DAT file at `p`; `walkRel d` the relative paths of all files below
`d` (`os.walk`); `listdir d` the direct entries of `d`; `isFile d f`
whether `d/f` is a regular file. -/
structure Env where
  romTitles : String → TitleIndex
  datEntries : String → List GameEntry
  dirExists : String → Bool
  walkRel : String → List String
  listdir : String → List String
  isFile : String → String → Bool

/-- The catalog cache: `(roms_dir, system_name, xml_dat_file)` → built
list. -/
abbrev Cache := List ((String × String × String) × List RomEntry)

/-- Embeds `get_rom_list_cached` (lines 147–192), with the mutable cache made
an explicit in/out value: returns the list and the updated cache. -/
def get_rom_list_cached (env : Env) (rom_titles_file roms_dir system_name xml_dat_file : String)
    (cache_dict : Cache) : List RomEntry × Cache :=
  let cache_key := (roms_dir, system_name, xml_dat_file)
  match dlookup cache_dict cache_key with
  | some cache => (cache, cache_dict)
  | none =>
    let rom_titles := env.romTitles rom_titles_file
    let meta := if xml_dat_file ≠ "" then parse_dat_metadata (env.datEntries xml_dat_file) else []
    if roms_dir = "" ∨ ¬ env.dirExists roms_dir then
      ([], dinsert cache_dict cache_key [])
    else
      let roms :=
        if system_name = "SNK Neo-Geo CD" then
          (env.walkRel roms_dir).filter (fun f => endsWithStr (toLowerStr f) ".cue")
        else
          (env.listdir roms_dir).filter (fun f =>
            env.isFile roms_dir f &&
              (endsWithStr (toLowerStr f) ".zip" || endsWithStr (toLowerStr f) ".7z" ||
                endsWithStr (toLowerStr f) ".cue"))
      let rom_list_sorted := sortEntries (buildRomList rom_titles meta roms system_name)
      (rom_list_sorted, dinsert cache_dict cache_key rom_list_sorted)

/-! ## Filter pipeline -/

/-- Embeds `filter_rom_list` (lines 194–205). -/
def filter_rom_list (rom_list : List RomEntry) (search year_filter manuf_filter : String)
    (hide_clones : Bool) : List RomEntry :=
  rom_list.foldl
    (fun filtered e =>
      let (_, title, year, manuf, is_clone) := e
      if hide_clones ∧ is_clone then filtered
      else if year_filter ≠ "" ∧ ¬ pyIn year_filter year then filtered
      else if manuf_filter ≠ "" ∧ ¬ pyIn (toLowerStr manuf_filter) (toLowerStr manuf) then filtered
      else if search = "" ∨ pyIn search (toLowerStr title) then filtered ++ [e]
      else filtered)
    []

/-! ## Repeat-rate input controller

Timestamps are rational milliseconds (`time.time() * 1000`); the
selection index is an integer, `-1` meaning "no current row" as in Qt.
`QListWidget.setCurrentRow` is external: passing a row outside
`[0, count-1]` selects no item, so the current row becomes `-1`
(`setCurrentItem(item(row))` with `item(row) = None`). -/

/-- Model of `QListWidget.setCurrentRow`: an in-range row becomes
current, an out-of-range row clears the selection. -/
def setCurrentRow (size row : Int) : Int :=
  if 0 ≤ row ∧ row < size then row else -1

/-- Per-direction repeat state: `last_hat_held[key]` /
`last_hat_held_time[key]`. -/
structure ScrollState where
  held : Bool
  lastTime : ℚ
deriving DecidableEq

/-- Which branch of the multi-step `scroll_list` body ran on a tick. -/
inductive ScrollBranch
  | edge
  | fast
  | slow
  | idle
  | release
deriving DecidableEq

/-- Result of one multi-step `scroll_list` tick. -/
structure ScrollResult where
  state : ScrollState
  row : Int
  branch : ScrollBranch
deriving DecidableEq

/-- Embeds `MainWindow.poll_joystick.scroll_list` (lines 985–1000): the
multi-step accelerating axis.  `fastest_delay` is in seconds, as in the
configuration; `isLeft` selects the `held_key == "left"` direction. -/
def scroll_list (fastest_delay : ℚ) (steps size idx : Int)
    (direction : Bool) (isLeft : Bool) (st : ScrollState) (now : ℚ) : ScrollResult :=
  if direction then
    if ¬ st.held then
      { state := { held := true, lastTime := now },
        row := setCurrentRow size
          (if isLeft then max 0 (idx - steps) else min (size - 1) (idx + steps)),
        branch := .edge }
    else if now - st.lastTime > fastest_delay * 1000 then
      { state := { held := st.held, lastTime := now - (fastest_delay * 1000 - 50) },
        row := setCurrentRow size
          (if isLeft then max 0 (idx - steps) else min (size - 1) (idx + steps)),
        branch := .fast }
    else if now - st.lastTime > 200 then
      { state := { held := st.held, lastTime := now },
        row := setCurrentRow size
          (if isLeft then max 0 (idx - steps) else min (size - 1) (idx + steps)),
        branch := .slow }
    else
      { state := st, row := idx, branch := .idle }
  else
    { state := { held := false, lastTime := st.lastTime }, row := idx, branch := .release }

/-- Embeds the `MainWindow.poll_joystick` hat-up handling (lines 1009–1018): the
single-step axis.  `scroll_cooldown` is in seconds. -/
def hat_up_step (scroll_cooldown : ℚ) (size idx : Int)
    (hat_up : Bool) (st : ScrollState) (now : ℚ) : ScrollState × Int :=
  if hat_up then
    if ¬ st.held then
      ({ held := true, lastTime := now }, setCurrentRow size (max 0 (idx - 1)))
    else if now - st.lastTime ≥ scroll_cooldown * 1000 then
      ({ held := st.held, lastTime := now }, setCurrentRow size (max 0 (idx - 1)))
    else (st, idx)
  else ({ held := false, lastTime := st.lastTime }, idx)

/-- Embeds the `MainWindow.poll_joystick` hat-down handling (lines 1020–1029). -/
def hat_down_step (scroll_cooldown : ℚ) (size idx : Int)
    (hat_down : Bool) (st : ScrollState) (now : ℚ) : ScrollState × Int :=
  if hat_down then
    if ¬ st.held then
      ({ held := true, lastTime := now }, setCurrentRow size (min (size - 1) (idx + 1)))
    else if now - st.lastTime ≥ scroll_cooldown * 1000 then
      ({ held := st.held, lastTime := now }, setCurrentRow size (min (size - 1) (idx + 1)))
    else (st, idx)
  else ({ held := false, lastTime := st.lastTime }, idx)

/-- Embeds `FavoritesDialog.poll_joystick.scroll_list` (lines 333–342).  Here
`scroll_cooldown` has already been multiplied by 1000 (line 327). -/
def fav_scroll_list (scroll_cooldown : ℚ) (steps size idx : Int)
    (direction : Bool) (isUp : Bool) (st : ScrollState) (now : ℚ) : ScrollState × Int :=
  if direction then
    if ¬ st.held ∨ now - st.lastTime ≥ scroll_cooldown then
      ({ held := true, lastTime := now },
        setCurrentRow size
          (if isUp then max 0 (idx - steps) else min (size - 1) (idx + steps)))
    else (st, idx)
  else ({ held := false, lastTime := st.lastTime }, idx)

/-- The `button_up` binding (line 1052). -/
def button_up_action (size cur : Int) : Int :=
  setCurrentRow size (max 0 (cur - 1))

/-- The `button_down` binding (line 1053). -/
def button_down_action (size cur : Int) : Int :=
  setCurrentRow size (min (size - 1) (cur + 1))

/-- The guard of `launch_selected_rom` (lines 951–956): with a negative
current row or an empty entry list nothing is launched. -/
def launch_selected_rom (roms : List RomEntry) (idx : Int) : Option RomEntry :=
  if idx < 0 ∨ roms = [] then none else roms[idx.toNat]?

/-! ## Helper lemmas -/

theorem buildRomList_eq_filterMap (rt : TitleIndex) (meta : MetaIndex)
    (roms : List String) (sys : String) :
    buildRomList rt meta roms sys = roms.filterMap (candidateEntry rt meta sys) := by
  suffices h : ∀ acc : List RomEntry,
      roms.foldl
        (fun rom_list rom =>
          match candidateEntry rt meta sys rom with
          | some e => rom_list ++ [e]
          | none => rom_list)
        acc = acc ++ roms.filterMap (candidateEntry rt meta sys) by
    simpa [buildRomList] using h []
  induction roms with
  | nil => intro acc; simp
  | cons r rest ih =>
    intro acc
    cases hce : candidateEntry rt meta sys r with
    | none => simp [List.foldl_cons, hce, ih]
    | some e =>
      rw [List.foldl_cons]
      simp only [hce]
      rw [ih (acc ++ [e])]
      simp [List.filterMap_cons, hce]

theorem candidateEntry_fst (rt : TitleIndex) (meta : MetaIndex)
    (sys rom : String) (e : RomEntry)
    (h : candidateEntry rt meta sys rom = some e) : e.1 = rom := by
  simp only [candidateEntry] at h
  split_ifs at h
  all_goals
    first
      | exact Option.noConfusion h
      | cases hd : dlookup meta (toLowerStr (pathStem rom)) with
        | none => simp only [hd] at h; cases h; rfl
        | some v =>
          obtain ⟨t, y, m, c⟩ := v
          simp only [hd] at h
          cases h
          rfl

theorem candidateEntry_rt_irrelevant (rt1 rt2 : TitleIndex) (meta : MetaIndex)
    (sys rom : String) (hsys : sys ≠ "SNK Neo-Geo CD") (hm : meta ≠ []) :
    candidateEntry rt1 meta sys rom = candidateEntry rt2 meta sys rom := by
  simp only [candidateEntry]
  by_cases h1 : ROM_HIDE_LIST.contains (toLowerStr (pathStem rom)) = true
  · rw [if_pos h1, if_pos h1]
  · rw [if_neg h1, if_neg h1, if_neg hsys, if_neg hsys]
    by_cases h3 : meta ≠ [] ∧ dlookup meta (toLowerStr (pathStem rom)) = none
    · rw [if_pos h3, if_pos h3]
    · rw [if_neg h3, if_neg h3]
      cases hd : dlookup meta (toLowerStr (pathStem rom)) with
      | none => exact absurd ⟨hm, hd⟩ h3
      | some v => simp only [hd]

theorem lexLe_refl (a : List Char) : lexLe a a = true := by
  induction a with
  | nil => rfl
  | cons c cs ih => simp [lexLe, ih]

theorem lexLe_total (a b : List Char) : lexLe a b || lexLe b a := by
  induction a generalizing b with
  | nil => simp [lexLe]
  | cons c cs ih =>
    cases b with
    | nil => simp [lexLe]
    | cons d ds =>
      by_cases h1 : c.toNat < d.toNat
      · simp [lexLe, h1]
      · by_cases h2 : d.toNat < c.toNat
        · simp [lexLe, h1, h2]
        · simp only [lexLe, if_neg h1, if_neg h2]
          exact ih ds

theorem lexLe_trans (a b c : List Char) (hab : lexLe a b = true)
    (hbc : lexLe b c = true) : lexLe a c = true := by
  induction a generalizing b c with
  | nil => rfl
  | cons x xs ih =>
    cases b with
    | nil => simp [lexLe] at hab
    | cons y ys =>
      cases c with
      | nil => simp [lexLe] at hbc
      | cons z zs =>
        simp only [lexLe] at hab hbc ⊢
        by_cases h1 : x.toNat < y.toNat
        · by_cases h2 : y.toNat < z.toNat
          · have : x.toNat < z.toNat := Nat.lt_trans h1 h2
            simp [this]
          · by_cases h3 : z.toNat < y.toNat
            · simp [h2, h3] at hbc
            · have hyz : y.toNat = z.toNat := Nat.le_antisymm (Nat.le_of_not_lt h3) (Nat.le_of_not_lt h2)
              have : x.toNat < z.toNat := hyz ▸ h1
              simp [this]
        · by_cases h4 : y.toNat < x.toNat
          · simp [h1, h4] at hab
          · have hxy : x.toNat = y.toNat := Nat.le_antisymm (Nat.le_of_not_lt h4) (Nat.le_of_not_lt h1)
            rw [if_neg h1, if_neg h4] at hab
            by_cases h2 : y.toNat < z.toNat
            · have : x.toNat < z.toNat := hxy ▸ h2
              simp [this]
            · by_cases h3 : z.toNat < y.toNat
              · simp [h2, h3] at hbc
              · rw [if_neg h2, if_neg h3] at hbc
                have h5 : ¬ x.toNat < z.toNat := hxy ▸ h2
                have h6 : ¬ z.toNat < x.toNat := hxy ▸ h3
                rw [if_neg h5, if_neg h6]
                exact ih ys zs hab hbc

theorem entryLE_trans (a b c : RomEntry) (hab : entryLE a b = true)
    (hbc : entryLE b c = true) : entryLE a c = true :=
  lexLe_trans _ _ _ hab hbc

theorem entryLE_total (a b : RomEntry) : entryLE a b || entryLE b a :=
  lexLe_total _ _

/-- The per-entry predicate of `filter_rom_list`. -/
def keepEntry (search year_filter manuf_filter : String) (hide_clones : Bool)
    (e : RomEntry) : Bool :=
  let (_, title, year, manuf, is_clone) := e
  if hide_clones ∧ is_clone then false
  else if year_filter ≠ "" ∧ ¬ pyIn year_filter year then false
  else if manuf_filter ≠ "" ∧ ¬ pyIn (toLowerStr manuf_filter) (toLowerStr manuf) then false
  else if search = "" ∨ pyIn search (toLowerStr title) then true
  else false

theorem filter_rom_list_eq_filter (l : List RomEntry)
    (search year_filter manuf_filter : String) (hide_clones : Bool) :
    filter_rom_list l search year_filter manuf_filter hide_clones
      = l.filter (keepEntry search year_filter manuf_filter hide_clones) := by
  suffices h : ∀ acc : List RomEntry,
      l.foldl
        (fun filtered e =>
          let (_, title, year, manuf, is_clone) := e
          if hide_clones ∧ is_clone then filtered
          else if year_filter ≠ "" ∧ ¬ pyIn year_filter year then filtered
          else if manuf_filter ≠ "" ∧ ¬ pyIn (toLowerStr manuf_filter) (toLowerStr manuf) then
            filtered
          else if search = "" ∨ pyIn search (toLowerStr title) then filtered ++ [e]
          else filtered)
        acc = acc ++ l.filter (keepEntry search year_filter manuf_filter hide_clones) by
    simpa [filter_rom_list] using h []
  induction l with
  | nil => intro acc; simp
  | cons e rest ih =>
    intro acc
    obtain ⟨r, title, year, manuf, is_clone⟩ := e
    rw [List.foldl_cons]
    by_cases hkeep : keepEntry search year_filter manuf_filter hide_clones
      (r, title, year, manuf, is_clone) = true
    · have hstep :
          (if hide_clones ∧ is_clone then acc
            else if year_filter ≠ "" ∧ ¬ pyIn year_filter year then acc
            else if manuf_filter ≠ "" ∧ ¬ pyIn (toLowerStr manuf_filter) (toLowerStr manuf) then
              acc
            else if search = "" ∨ pyIn search (toLowerStr title) then
              acc ++ [(r, title, year, manuf, is_clone)]
            else acc)
            = acc ++ [(r, title, year, manuf, is_clone)] := by
        simp only [keepEntry] at hkeep
        split_ifs at hkeep ⊢
        all_goals simp_all
      simp only [hstep]
      rw [ih (acc ++ [(r, title, year, manuf, is_clone)])]
      simp [List.filter_cons, hkeep]
    · have hstep :
          (if hide_clones ∧ is_clone then acc
            else if year_filter ≠ "" ∧ ¬ pyIn year_filter year then acc
            else if manuf_filter ≠ "" ∧ ¬ pyIn (toLowerStr manuf_filter) (toLowerStr manuf) then
              acc
            else if search = "" ∨ pyIn search (toLowerStr title) then
              acc ++ [(r, title, year, manuf, is_clone)]
            else acc)
            = acc := by
        simp only [keepEntry] at hkeep
        split_ifs at hkeep ⊢
        all_goals simp_all
      simp only [hstep]
      rw [ih acc]
      have hkeep' : keepEntry search year_filter manuf_filter hide_clones
          (r, title, year, manuf, is_clone) = false := by
        simpa using hkeep
      simp [List.filter_cons, hkeep']

theorem parseEntry_bios (e : GameEntry) (h : e.isbios.getD "no" = "yes") :
    parseEntry e = none := by
  simp [parseEntry, h]

theorem parseEntry_key (e : GameEntry) (k : String) (v : MetaVal)
    (h : parseEntry e = some (k, v)) : k = toLowerStr (effName e) := by
  simp only [parseEntry] at h
  split_ifs at h
  cases h
  rfl

theorem dlookup_foldl_parseStep_skip (l : List GameEntry) (acc : MetaIndex) (k : String)
    (h : ∀ e ∈ l, ∀ v, parseEntry e ≠ some (k, v)) :
    dlookup (l.foldl parseStep acc) k = dlookup acc k := by
  induction l generalizing acc with
  | nil => rfl
  | cons e rest ih =>
    rw [List.foldl_cons]
    have hrest : ∀ e' ∈ rest, ∀ v, parseEntry e' ≠ some (k, v) := by
      intro e' he' v
      exact h e' (List.mem_cons_of_mem _ he') v
    rw [ih (parseStep acc e) hrest]
    cases hp : parseEntry e with
    | none => simp [parseStep, hp]
    | some kv =>
      obtain ⟨k', v⟩ := kv
      have hne : k' ≠ k := by
        intro hkk
        exact h e (List.mem_cons_self _ _) v (hkk ▸ hp)
      simp [parseStep, hp, dlookup_dinsert_ne _ _ _ _ hne]

theorem parse_dat_metadata_filter_bios (entries : List GameEntry) :
    parse_dat_metadata entries
      = parse_dat_metadata (entries.filter (fun e => decide (e.isbios.getD "no" ≠ "yes"))) := by
  suffices h : ∀ acc : MetaIndex,
      entries.foldl parseStep acc
        = (entries.filter (fun e => decide (e.isbios.getD "no" ≠ "yes"))).foldl parseStep acc by
    exact h []
  induction entries with
  | nil => intro acc; rfl
  | cons e rest ih =>
    intro acc
    by_cases hb : e.isbios.getD "no" = "yes"
    · have hpe : parseEntry e = none := parseEntry_bios e hb
      have hstep : parseStep acc e = acc := by simp [parseStep, hpe]
      simp [List.filter_cons, hb, List.foldl_cons, hstep, ih]
    · simp [List.filter_cons, hb, List.foldl_cons, ih]

/-- Sortedness of a catalog: adjacent (indeed all) pairs are in
`entryLE` order. -/
def SortedCatalog (l : List RomEntry) : Prop :=
  l.Pairwise (fun a b => entryLE a b = true)

/-- Every list stored in the cache is sorted. -/
def CacheWF (c : Cache) : Prop :=
  ∀ key l, dlookup c key = some l → SortedCatalog l

theorem sortEntries_sorted (l : List RomEntry) : SortedCatalog (sortEntries l) := by
  have h := List.sorted_mergeSort entryLE_trans (fun a b => entryLE_total a b) l
  exact h

theorem pairwise_of_key_eq (m : List RomEntry) (k : List Char)
    (hm : ∀ e ∈ m, titleKey e = k) : m.Pairwise (fun a b => entryLE a b = true) := by
  induction m with
  | nil => exact List.Pairwise.nil
  | cons e rest ih =>
    refine List.Pairwise.cons ?_ (ih (fun e' he' => hm e' (List.mem_cons_of_mem _ he')))
    intro b hb
    have h1 : titleKey e = k := hm e (List.mem_cons_self _ _)
    have h2 : titleKey b = k := hm b (List.mem_cons_of_mem _ hb)
    simp [entryLE, h1, h2, lexLe_refl]

theorem sortEntries_stable (l : List RomEntry) (k : List Char) :
    (sortEntries l).filter (fun e => decide (titleKey e = k))
      = l.filter (fun e => decide (titleKey e = k)) := by
  have hsub : List.Sublist (l.filter (fun e => decide (titleKey e = k))) l := List.filter_sublist l
  have hpair : (l.filter (fun e => decide (titleKey e = k))).Pairwise
      (fun a b => entryLE a b = true) := by
    refine pairwise_of_key_eq _ k ?_
    intro e he
    have := List.of_mem_filter he
    simpa using this
  have hsub2 : List.Sublist (l.filter (fun e => decide (titleKey e = k))) (sortEntries l) :=
    List.sublist_mergeSort entryLE_trans (fun a b => entryLE_total a b) hpair hsub
  have hself : (l.filter (fun e => decide (titleKey e = k))).filter
      (fun e => decide (titleKey e = k)) = l.filter (fun e => decide (titleKey e = k)) := by
    refine List.filter_eq_self.mpr ?_
    intro a ha
    exact (List.mem_filter.mp ha).2
  have hsub3 : List.Sublist (l.filter (fun e => decide (titleKey e = k)))
      ((sortEntries l).filter (fun e => decide (titleKey e = k))) := by
    have := hsub2.filter (fun e => decide (titleKey e = k))
    rwa [hself] at this
  have hperm : List.Perm ((sortEntries l).filter (fun e => decide (titleKey e = k)))
      (l.filter (fun e => decide (titleKey e = k))) :=
    (List.mergeSort_perm l entryLE).filter _
  have hlen : (l.filter (fun e => decide (titleKey e = k))).length
      = ((sortEntries l).filter (fun e => decide (titleKey e = k))).length :=
    hperm.length_eq.symm
  exact (hsub3.eq_of_length hlen).symm

theorem CacheWF_dinsert (c : Cache) (key : String × String × String)
    (v : List RomEntry) (hc : CacheWF c) (hv : SortedCatalog v) :
    CacheWF (dinsert c key v) := by
  intro key' l h
  by_cases hk : key = key'
  · subst hk
    rw [dlookup_dinsert_self] at h
    cases h
    exact hv
  · rw [dlookup_dinsert_ne _ _ _ _ hk] at h
    exact hc key' l h

theorem candidateEntry_std_absent (rt : TitleIndex) (meta : MetaIndex) (sys rom : String)
    (hsys : sys ≠ "SNK Neo-Geo CD") (hm : meta ≠ [])
    (hlk : dlookup meta (toLowerStr (pathStem rom)) = none) :
    candidateEntry rt meta sys rom = none := by
  simp only [candidateEntry]
  by_cases h1 : ROM_HIDE_LIST.contains (toLowerStr (pathStem rom)) = true
  · rw [if_pos h1]
  · rw [if_neg h1, if_neg hsys, if_pos ⟨hm, hlk⟩]

theorem candidateEntry_cd_fallback (rt : TitleIndex) (meta : MetaIndex) (rom : String)
    (hhide : ROM_HIDE_LIST.contains (toLowerStr (pathStem rom)) = false)
    (hlk : dlookup meta (toLowerStr (pathStem rom)) = none) :
    candidateEntry rt meta "SNK Neo-Geo CD" rom
      = some (rom, (dlookup rt (toLowerStr (pathStem rom))).getD (pathStem rom), "", "", false) := by
  have hhide' : toLowerStr (pathStem rom) ∉ ROM_HIDE_LIST := by simpa using hhide
  simp [candidateEntry, hhide', hlk]

/-! ## Claim theorems -/

/-- C1, counterexample: the claim that under the multi-file-disc profile
every candidate whose stem is absent from the metadata index is included
fails for a candidate whose stem is in the built-in exclude set: the
candidate `neocdz.cue` has no metadata entry, yet the built catalog is
empty — the candidate is not included. -/
theorem claim1_counterexample :
    dlookup ([] : MetaIndex) (toLowerStr (pathStem "neocdz.cue")) = none ∧
    buildRomList [("neocdz", "Neo-Geo CDZ")] [] ["neocdz.cue"] "SNK Neo-Geo CD" = [] := by
  constructor
  · rfl
  · decide

/-- C1, amended: for the standard profile with a non-empty authoritative
metadata index, a candidate whose lower-cased stem is absent from the
index contributes no entry to the built catalog; for the multi-file-disc
profile `"SNK Neo-Geo CD"`, a candidate whose stem is absent from the
index **and not in the built-in exclude set** is still included, with
title resolved from the title-fallback index (or the bare stem),
year/manufacturer empty and is_clone false. -/
theorem claim1_merge_precedence :
    (∀ (rt : TitleIndex) (meta : MetaIndex) (roms : List String) (sys rom : String),
      sys ≠ "SNK Neo-Geo CD" → meta ≠ [] →
      dlookup meta (toLowerStr (pathStem rom)) = none →
      ∀ e ∈ buildRomList rt meta roms sys, e.1 ≠ rom) ∧
    (∀ (rt : TitleIndex) (meta : MetaIndex) (roms : List String) (rom : String),
      rom ∈ roms →
      ROM_HIDE_LIST.contains (toLowerStr (pathStem rom)) = false →
      dlookup meta (toLowerStr (pathStem rom)) = none →
      (rom, (dlookup rt (toLowerStr (pathStem rom))).getD (pathStem rom), "", "", false)
        ∈ buildRomList rt meta roms "SNK Neo-Geo CD") := by
  constructor
  · intro rt meta roms sys rom hsys hm hlk e he heq
    rw [buildRomList_eq_filterMap] at he
    obtain ⟨r, _, hce⟩ := List.mem_filterMap.mp he
    have hr : e.1 = r := candidateEntry_fst rt meta sys r e hce
    rw [heq] at hr
    rw [← hr] at hce
    rw [candidateEntry_std_absent rt meta sys rom hsys hm hlk] at hce
    exact Option.noConfusion hce
  · intro rt meta roms rom hmem hhide hlk
    rw [buildRomList_eq_filterMap]
    exact List.mem_filterMap.mpr ⟨rom, hmem, candidateEntry_cd_fallback rt meta rom hhide hlk⟩

/-- Witness for C1 at concrete inputs: system `"Arcade"` with metadata
index `{"other": …}` excludes the unmatched candidate `game.zip`;
system `"SNK Neo-Geo CD"` includes the unmatched candidate `game.cue`
with the fallback title. -/
theorem claim1_witness :
    (∀ e ∈ buildRomList [] [("other", ("T", "", "", false))] ["game.zip"] "Arcade",
      e.1 ≠ "game.zip") ∧
    ("game.cue", "Fallback", "", "", false)
      ∈ buildRomList [("game", "Fallback")] [("other", ("T", "", "", false))]
          ["game.cue"] "SNK Neo-Geo CD" := by
  constructor
  · exact claim1_merge_precedence.1 [] [("other", ("T", "", "", false))] ["game.zip"]
      "Arcade" "game.zip" (by decide) (by decide) (by decide)
  · have h := claim1_merge_precedence.2 [("game", "Fallback")] [("other", ("T", "", "", false))]
      ["game.cue"] "game.cue" (by decide) (by decide) (by decide)
    simpa using h

theorem get_rom_list_cached_hit (env : Env) (rtf dir sys xml : String) (c : Cache)
    (v : List RomEntry) (h : dlookup c (dir, sys, xml) = some v) :
    get_rom_list_cached env rtf dir sys xml c = (v, c) := by
  simp [get_rom_list_cached, h]

theorem get_rom_list_cached_stores (env : Env) (rtf dir sys xml : String) (c : Cache) :
    dlookup (get_rom_list_cached env rtf dir sys xml c).2 (dir, sys, xml)
      = some (get_rom_list_cached env rtf dir sys xml c).1 := by
  cases h : dlookup c (dir, sys, xml) with
  | some v => rw [get_rom_list_cached_hit env rtf dir sys xml c v h]; exact h
  | none =>
    simp only [get_rom_list_cached, h]
    by_cases hdir : dir = "" ∨ ¬ env.dirExists dir = true
    · rw [if_pos hdir]
      exact dlookup_dinsert_self c (dir, sys, xml) []
    · rw [if_neg hdir]
      exact dlookup_dinsert_self c (dir, sys, xml) _

/-- C8 (idempotence of the cached build): after any call of
`get_rom_list_cached`, the cache maps the key to exactly the returned
list, and a second call with the same key — against any environment at
all, i.e. without re-scanning the directory or re-parsing any file —
returns exactly the first call's list and leaves the cache unchanged. -/
theorem claim8_idempotent (env env' : Env) (rtf rtf' dir sys xml : String) (c : Cache) :
    get_rom_list_cached env' rtf' dir sys xml (get_rom_list_cached env rtf dir sys xml c).2
        = get_rom_list_cached env rtf dir sys xml c ∧
    dlookup (get_rom_list_cached env rtf dir sys xml c).2 (dir, sys, xml)
        = some (get_rom_list_cached env rtf dir sys xml c).1 := by
  refine ⟨?_, get_rom_list_cached_stores env rtf dir sys xml c⟩
  have h := get_rom_list_cached_hit env' rtf' dir sys xml
    (get_rom_list_cached env rtf dir sys xml c).2
    (get_rom_list_cached env rtf dir sys xml c).1
    (get_rom_list_cached_stores env rtf dir sys xml c)
  rw [h]

/-- Environment for the C2 counterexample: the two title-fallback files
`t1.txt` and `t2.txt` parse to different indices, everything else is
fixed; the single candidate is `game.zip` and no XML/DAT file is set. -/
def envC2 : Env where
  romTitles := fun p => if p = "t1.txt" then [("game", "Alpha")] else [("game", "Beta")]
  datEntries := fun _ => []
  dirExists := fun _ => true
  walkRel := fun _ => []
  listdir := fun _ => ["game.zip"]
  isFile := fun _ _ => true

/-- C2, counterexample: two fresh (cache-miss) builds with **equal**
cache keys `("roms", "Arcade", "")` but different `rom_titles_file`
arguments produce different catalogs, so the cache key does not
determine the result of a fresh build. -/
theorem claim2_counterexample :
    (get_rom_list_cached envC2 "t1.txt" "roms" "Arcade" "" []).1
      ≠ (get_rom_list_cached envC2 "t2.txt" "roms" "Arcade" "" []).1 := by
  have h1 : (get_rom_list_cached envC2 "t1.txt" "roms" "Arcade" "" []).1
      = [("game.zip", "Alpha", "", "", false)] := by
    simp +decide [get_rom_list_cached, envC2, dlookup, sortEntries, buildRomList, candidateEntry,
      pathStem, basenameChars, stemOfName, toLowerStr, lowerChar, endsWithStr,
      isPrefixChars, ROM_HIDE_LIST]
  have h2 : (get_rom_list_cached envC2 "t2.txt" "roms" "Arcade" "" []).1
      = [("game.zip", "Beta", "", "", false)] := by
    simp +decide [get_rom_list_cached, envC2, dlookup, sortEntries, buildRomList, candidateEntry,
      pathStem, basenameChars, stemOfName, toLowerStr, lowerChar, endsWithStr,
      isPrefixChars, ROM_HIDE_LIST]
  rw [h1, h2]
  decide

/-- C2, amended: the cache key does determine the result once the
title-fallback input is irrelevant — under the standard profile with a
supplied metadata file whose parsed index is non-empty, two invocations
that agree on the cache key `(roms_dir, system, xml)` give the same
result whatever `rom_titles_file` they pass, because the authoritative
index acts as a whitelist and titles come from it alone. -/
theorem claim2_key_determines (env : Env) (rtf1 rtf2 dir sys xml : String) (c : Cache)
    (hsys : sys ≠ "SNK Neo-Geo CD") (hxml : xml ≠ "")
    (hm : parse_dat_metadata (env.datEntries xml) ≠ []) :
    get_rom_list_cached env rtf1 dir sys xml c = get_rom_list_cached env rtf2 dir sys xml c := by
  cases h : dlookup c (dir, sys, xml) with
  | some v =>
    rw [get_rom_list_cached_hit env rtf1 dir sys xml c v h,
      get_rom_list_cached_hit env rtf2 dir sys xml c v h]
  | none =>
    simp only [get_rom_list_cached, h]
    by_cases hdir : dir = "" ∨ ¬ env.dirExists dir = true
    · rw [if_pos hdir, if_pos hdir]
    · rw [if_neg hdir, if_neg hdir]
      have hM : (if xml ≠ "" then parse_dat_metadata (env.datEntries xml)
          else ([] : MetaIndex))
          = parse_dat_metadata (env.datEntries xml) := by
        rw [if_pos hxml]
      have hfun : candidateEntry (env.romTitles rtf1)
            (if xml ≠ "" then parse_dat_metadata (env.datEntries xml) else ([] : MetaIndex)) sys
          = candidateEntry (env.romTitles rtf2)
            (if xml ≠ "" then parse_dat_metadata (env.datEntries xml) else ([] : MetaIndex)) sys := by
        funext r
        exact candidateEntry_rt_irrelevant _ _ _ sys r hsys (by rw [hM]; exact hm)
      have hbuild : ∀ roms : List String,
          buildRomList (env.romTitles rtf1)
              (if xml ≠ "" then parse_dat_metadata (env.datEntries xml) else ([] : MetaIndex))
              roms sys
            = buildRomList (env.romTitles rtf2)
              (if xml ≠ "" then parse_dat_metadata (env.datEntries xml) else ([] : MetaIndex))
              roms sys := by
        intro roms
        rw [buildRomList_eq_filterMap, buildRomList_eq_filterMap, hfun]
      rw [hbuild]

/-- Witness environment with a non-empty parsed metadata index. -/
def envC2W : Env where
  romTitles := fun p => if p = "t1.txt" then [("game", "Alpha")] else [("game", "Beta")]
  datEntries := fun _ =>
    [{ isbios := none, nameAttr := some "game", romnameAttr := none, cloneofAttr := none,
       descriptionNode := some (some "Game Title"), yearNode := none,
       manufacturerNode := none }]
  dirExists := fun _ => true
  walkRel := fun _ => []
  listdir := fun _ => ["game.zip"]
  isFile := fun _ _ => true

/-- Witness for C2 at concrete inputs. -/
theorem claim2_witness :
    get_rom_list_cached envC2W "t1.txt" "roms" "Arcade" "games.dat" []
      = get_rom_list_cached envC2W "t2.txt" "roms" "Arcade" "games.dat" [] :=
  claim2_key_determines envC2W "t1.txt" "t2.txt" "roms" "Arcade" "games.dat" []
    (by decide) (by decide) (by decide)

/-- Trivial environment used by witnesses: nothing on disk. -/
def env0 : Env where
  romTitles := fun _ => []
  datEntries := fun _ => []
  dirExists := fun _ => false
  walkRel := fun _ => []
  listdir := fun _ => []
  isFile := fun _ _ => false

/-- C4 (sort invariant): starting from a well-formed cache (every stored
list sorted), any `get_rom_list_cached` call returns a sorted list and
preserves cache well-formedness; moreover the sort is stable — for each
sort key, the entries carrying that key appear in the sorted catalog in
exactly their enumeration order. -/
theorem claim4_sort_invariant :
    (∀ (env : Env) (rtf dir sys xml : String) (c : Cache), CacheWF c →
      SortedCatalog (get_rom_list_cached env rtf dir sys xml c).1 ∧
      CacheWF (get_rom_list_cached env rtf dir sys xml c).2) ∧
    (∀ (rt : TitleIndex) (meta : MetaIndex) (roms : List String) (sys : String) (k : List Char),
      (sortEntries (buildRomList rt meta roms sys)).filter (fun e => decide (titleKey e = k))
        = (buildRomList rt meta roms sys).filter (fun e => decide (titleKey e = k))) := by
  constructor
  · intro env rtf dir sys xml c hc
    cases h : dlookup c (dir, sys, xml) with
    | some v =>
      rw [get_rom_list_cached_hit env rtf dir sys xml c v h]
      exact ⟨hc _ v h, hc⟩
    | none =>
      simp only [get_rom_list_cached, h]
      by_cases hdir : dir = "" ∨ ¬ env.dirExists dir = true
      · rw [if_pos hdir]
        exact ⟨List.Pairwise.nil, CacheWF_dinsert c _ [] hc List.Pairwise.nil⟩
      · rw [if_neg hdir]
        exact ⟨sortEntries_sorted _, CacheWF_dinsert c _ _ hc (sortEntries_sorted _)⟩
  · intro rt meta roms sys k
    exact sortEntries_stable _ k

/-- Witness for C4: a build from the empty (well-formed) cache. -/
theorem claim4_witness :
    SortedCatalog (get_rom_list_cached env0 "t.txt" "roms" "Arcade" "" []).1 ∧
    CacheWF (get_rom_list_cached env0 "t.txt" "roms" "Arcade" "" []).2 :=
  claim4_sort_invariant.1 env0 "t.txt" "roms" "Arcade" "" []
    (fun _ _ h => Option.noConfusion h)

/-- C5 (BIOS exclusion): BIOS-flagged records contribute nothing to the
parsed metadata index — parsing a record list gives the same index as
parsing it with all BIOS records removed — and an identifier carried
only by BIOS-flagged records is never a key of the index. -/
theorem claim5_bios_exclusion :
    (∀ entries : List GameEntry,
      parse_dat_metadata entries
        = parse_dat_metadata (entries.filter (fun e => decide (e.isbios.getD "no" ≠ "yes")))) ∧
    (∀ (entries : List GameEntry) (k : String),
      (∀ e ∈ entries, toLowerStr (effName e) = k → e.isbios.getD "no" = "yes") →
      dlookup (parse_dat_metadata entries) k = none) := by
  constructor
  · exact parse_dat_metadata_filter_bios
  · intro entries k h
    have h' : ∀ e ∈ entries, ∀ v, parseEntry e ≠ some (k, v) := by
      intro e he v hpe
      have hk : k = toLowerStr (effName e) := parseEntry_key e k v hpe
      have hb : e.isbios.getD "no" = "yes" := h e he hk.symm
      rw [parseEntry_bios e hb] at hpe
      exact Option.noConfusion hpe
    have := dlookup_foldl_parseStep_skip entries [] k h'
    simpa [parse_dat_metadata, dlookup] using this

/-- A BIOS-flagged record, as in `<game name="neogeo" isbios="yes">`. -/
def biosRec : GameEntry where
  isbios := some "yes"
  nameAttr := some "neogeo"
  romnameAttr := none
  cloneofAttr := none
  descriptionNode := some (some "Neo-Geo BIOS")
  yearNode := none
  manufacturerNode := none

/-- Witness for C5: the identifier of a BIOS record is not a key of the
parsed index. -/
theorem claim5_witness :
    dlookup (parse_dat_metadata [biosRec]) "neogeo" = none :=
  claim5_bios_exclusion.2 [biosRec] "neogeo" (by decide)

/-- C10 (missing description): a non-BIOS record with a non-empty
identifier whose `description` node is absent, has no text, or has empty
text is still indexed, under its lower-cased identifier, with its title
equal to the identifier itself (hence non-empty, since the identifier
is). -/
theorem claim10_missing_description (l1 l2 : List GameEntry) (e : GameEntry)
    (hb : ¬ e.isbios.getD "no" = "yes") (hn : effName e ≠ "")
    (hd : e.descriptionNode = none ∨ e.descriptionNode = some none ∨
      e.descriptionNode = some (some ""))
    (h2 : ∀ e' ∈ l2, ∀ v, parseEntry e' ≠ some (toLowerStr (effName e), v)) :
    dlookup (parse_dat_metadata (l1 ++ e :: l2)) (toLowerStr (effName e))
      = some (effName e, textOr e.yearNode "", textOr e.manufacturerNode "",
          e.cloneofAttr.isSome) := by
  have htitle : textOr e.descriptionNode (effName e) = effName e := by
    rcases hd with h | h | h <;> simp [textOr, h]
  have hpe : parseEntry e = some (toLowerStr (effName e),
      (effName e, textOr e.yearNode "", textOr e.manufacturerNode "",
        e.cloneofAttr.isSome)) := by
    simp [parseEntry, hb, hn, htitle]
  have hsplit : parse_dat_metadata (l1 ++ e :: l2)
      = l2.foldl parseStep (parseStep (l1.foldl parseStep []) e) := by
    simp [parse_dat_metadata, List.foldl_append]
  rw [hsplit, dlookup_foldl_parseStep_skip l2 _ _ h2]
  simp [parseStep, hpe, dlookup_dinsert_self]

/-- A record without a description node, as in
`<game name="Game" cloneof="parent"><year>1993</year>…</game>`. -/
def recNoDesc : GameEntry where
  isbios := none
  nameAttr := some "Game"
  romnameAttr := none
  cloneofAttr := some "parent"
  descriptionNode := none
  yearNode := some (some "1993")
  manufacturerNode := some (some "SNK")

/-- An ordinary record preceding `recNoDesc` in the witness file. -/
def recAlpha : GameEntry where
  isbios := none
  nameAttr := some "aaa"
  romnameAttr := none
  cloneofAttr := none
  descriptionNode := some (some "Alpha")
  yearNode := none
  manufacturerNode := none

/-- Witness for C10: the description-less record is indexed with its
name as title. -/
theorem claim10_witness :
    dlookup (parse_dat_metadata [recAlpha, recNoDesc]) (toLowerStr (effName recNoDesc))
      = some (effName recNoDesc, textOr recNoDesc.yearNode "",
          textOr recNoDesc.manufacturerNode "", recNoDesc.cloneofAttr.isSome) :=
  claim10_missing_description [recAlpha] [] recNoDesc (by decide) (by decide)
    (by exact Or.inl rfl) (by intro e' he'; exact absurd he' (List.not_mem_nil e'))

/-- C6, counterexample: `filter_rom_list` compares the search text
case-sensitively — the upper-cased search `"ABC"` drops the entry titled
`"abc"` even though it is a case-insensitive substring of the title. -/
theorem claim6_counterexample :
    filter_rom_list [("r.zip", "abc", "", "", false)] "ABC" "" "" false = [] ∧
    pyIn (toLowerStr "ABC") (toLowerStr "abc") = true := by
  constructor
  · decide
  · decide

/-- C6, amended: the title side of the search match is lower-cased
inside `filter_rom_list`, but the search text is lower-cased only by the
caller (`update_rom_list` passes `search_edit.text().lower()`); for a
search text lowered that way the pipeline retains exactly the entries
whose title contains it case-insensitively (other criteria empty). -/
theorem claim6_search_case (l : List RomEntry) (raw : String) :
    filter_rom_list l (toLowerStr raw) "" "" false
      = l.filter (fun e =>
          decide (toLowerStr raw = "") || pyIn (toLowerStr raw) (toLowerStr e.2.1)) := by
  rw [filter_rom_list_eq_filter]
  refine List.filter_congr ?_
  intro e _
  obtain ⟨r, title, year, manuf, is_clone⟩ := e
  by_cases hs : toLowerStr raw = ""
  · simp [keepEntry, hs]
  · by_cases hp : pyIn (toLowerStr raw) (toLowerStr title) = true
    · simp [keepEntry, hs, hp]
    · simp [keepEntry, hs, hp]

theorem scroll_list_release (fd : ℚ) (steps size idx : Int) (isL : Bool)
    (st : ScrollState) (now : ℚ) :
    scroll_list fd steps size idx false isL st now
      = { state := { held := false, lastTime := st.lastTime }, row := idx,
          branch := .release } := by
  unfold scroll_list
  rw [if_neg (by decide)]

theorem scroll_list_edge (fd : ℚ) (steps size idx : Int) (isL : Bool)
    (st : ScrollState) (now : ℚ) (h : st.held = false) :
    scroll_list fd steps size idx true isL st now
      = { state := { held := true, lastTime := now },
          row := setCurrentRow size
            (if isL then max 0 (idx - steps) else min (size - 1) (idx + steps)),
          branch := .edge } := by
  unfold scroll_list
  rw [if_pos rfl, if_pos (by rw [h]; decide)]

theorem scroll_list_fast (fd : ℚ) (steps size idx : Int) (isL : Bool)
    (st : ScrollState) (now : ℚ) (h : st.held = true)
    (h2 : now - st.lastTime > fd * 1000) :
    scroll_list fd steps size idx true isL st now
      = { state := { held := st.held, lastTime := now - (fd * 1000 - 50) },
          row := setCurrentRow size
            (if isL then max 0 (idx - steps) else min (size - 1) (idx + steps)),
          branch := .fast } := by
  unfold scroll_list
  rw [if_pos rfl, if_neg (by rw [h]; decide), if_pos h2]

theorem scroll_list_idle (fd : ℚ) (steps size idx : Int) (isL : Bool)
    (st : ScrollState) (now : ℚ) (h : st.held = true)
    (h2 : ¬ now - st.lastTime > fd * 1000) (h3 : ¬ now - st.lastTime > 200) :
    scroll_list fd steps size idx true isL st now
      = { state := st, row := idx, branch := .idle } := by
  unfold scroll_list
  rw [if_pos rfl, if_neg (by rw [h]; decide), if_neg h2, if_neg h3]

/-- C3 (multi-step accelerating axis, `fastest_steps = 10`,
`fastest_delay = 0.02 s`, a 50-item list): the held-edge at `t = 0` from
index 0 moves to index 10 immediately; while held with
`lastActionTimestamp = 0`, no tick at `now ≤ 20 ms` moves, and every
tick at `now > 20 ms` moves to index 20, rebasing the timestamp to
`now + 30` (that is, `now − (fastestDelay − 50 ms)`); from a state
rebased after a move at time `tF`, no tick at `now ≤ tF + 50` moves and
every tick at `now > tF + 50` fires again — the inter-repeat gap is
floored at 50 ms. -/
theorem claim3_multi_step_axis :
    (∀ t : ℚ, scroll_list 0.02 10 50 0 true false { held := false, lastTime := t } 0
        = { state := { held := true, lastTime := 0 }, row := 10, branch := .edge }) ∧
    (∀ now : ℚ, 0 ≤ now → now ≤ 20 →
      scroll_list 0.02 10 50 10 true false { held := true, lastTime := 0 } now
        = { state := { held := true, lastTime := 0 }, row := 10, branch := .idle }) ∧
    (∀ now : ℚ, 20 < now →
      scroll_list 0.02 10 50 10 true false { held := true, lastTime := 0 } now
        = { state := { held := true, lastTime := now + 30 }, row := 20, branch := .fast }) ∧
    (∀ (tF now : ℚ) (i : Int), now ≤ tF + 50 →
      scroll_list 0.02 10 50 i true false { held := true, lastTime := tF + 30 } now
        = { state := { held := true, lastTime := tF + 30 }, row := i, branch := .idle }) ∧
    (∀ (tF now : ℚ) (i : Int), tF + 50 < now →
      (scroll_list 0.02 10 50 i true false { held := true, lastTime := tF + 30 } now).branch
        = .fast) := by
  refine ⟨?_, ?_, ?_, ?_, ?_⟩
  · intro t
    rw [scroll_list_edge 0.02 10 50 0 false { held := false, lastTime := t } 0 rfl]
    rfl
  · intro now h0 h20
    rw [scroll_list_idle 0.02 10 50 10 false { held := true, lastTime := 0 } now rfl
      ?_ ?_]
    · show ¬ now - (0 : ℚ) > 0.02 * 1000
      intro hc
      norm_num at hc
      linarith
    · show ¬ now - (0 : ℚ) > 200
      intro hc
      norm_num at hc
      linarith
  · intro now h20
    rw [scroll_list_fast 0.02 10 50 10 false { held := true, lastTime := 0 } now rfl
      (by show now - (0 : ℚ) > 0.02 * 1000; norm_num; linarith)]
    have hrow : setCurrentRow 50
        (if (false : Bool) = true then max 0 (10 - 10) else min (50 - 1) (10 + 10)) = 20 := by
      decide
    rw [hrow]
    have ht : now - ((0.02 : ℚ) * 1000 - 50) = now + 30 := by norm_num
    rw [ht]
  · intro tF now i hle
    rw [scroll_list_idle 0.02 10 50 i false { held := true, lastTime := tF + 30 } now rfl
      ?_ ?_]
    · show ¬ now - (tF + 30) > (0.02 : ℚ) * 1000
      intro hc
      norm_num at hc
      linarith
    · show ¬ now - (tF + 30) > (200 : ℚ)
      intro hc
      linarith
  · intro tF now i hgt
    rw [scroll_list_fast 0.02 10 50 i false { held := true, lastTime := tF + 30 } now rfl
      (by show now - (tF + 30) > (0.02 : ℚ) * 1000; norm_num; linarith)]

/-- Witness for C3: the edge tick at `t = 0`, the idle tick at exactly
`t = 20`, the firing tick at `t = 40` (landing at index 20, timestamp
rebased to 70), the idle tick at `t = 85 ≤ 40 + 50` and a firing tick at
`t = 95 > 40 + 50`. -/
theorem claim3_witness :
    scroll_list 0.02 10 50 0 true false { held := false, lastTime := 5 } 0
        = { state := { held := true, lastTime := 0 }, row := 10, branch := .edge } ∧
    scroll_list 0.02 10 50 10 true false { held := true, lastTime := 0 } 20
        = { state := { held := true, lastTime := 0 }, row := 10, branch := .idle } ∧
    scroll_list 0.02 10 50 10 true false { held := true, lastTime := 0 } 40
        = { state := { held := true, lastTime := 40 + 30 }, row := 20, branch := .fast } ∧
    scroll_list 0.02 10 50 20 true false { held := true, lastTime := 40 + 30 } 85
        = { state := { held := true, lastTime := 40 + 30 }, row := 20, branch := .idle } ∧
    (scroll_list 0.02 10 50 20 true false { held := true, lastTime := 40 + 30 } 95).branch
        = .fast :=
  ⟨claim3_multi_step_axis.1 5,
    claim3_multi_step_axis.2.1 20 (by norm_num) (by norm_num),
    claim3_multi_step_axis.2.2.1 40 (by norm_num),
    claim3_multi_step_axis.2.2.2.1 40 85 20 (by norm_num),
    claim3_multi_step_axis.2.2.2.2 40 95 20 (by norm_num)⟩

/-- C9 (dead fallback branch): whenever `fastest_delay * 1000 ≤ 200 ms`
— in particular at the documented default `0.02 s` — the 200 ms fallback
branch of the multi-step axis is never the branch taken on any tick,
because its guard implies the guard of the faster branch tested first. -/
theorem claim9_dead_branch (fd : ℚ) (steps size idx : Int) (direction isLeft : Bool)
    (st : ScrollState) (now : ℚ) (h : fd * 1000 ≤ 200) :
    (scroll_list fd steps size idx direction isLeft st now).branch ≠ ScrollBranch.slow := by
  cases direction with
  | false =>
    rw [scroll_list_release]
    simp
  | true =>
    cases hheld : st.held with
    | false =>
      rw [scroll_list_edge fd steps size idx isLeft st now hheld]
      simp
    | true =>
      by_cases hfast : now - st.lastTime > fd * 1000
      · rw [scroll_list_fast fd steps size idx isLeft st now hheld hfast]
        simp
      · have hslow : ¬ now - st.lastTime > 200 := by
          intro hc
          have := not_lt.mp hfast
          linarith
        rw [scroll_list_idle fd steps size idx isLeft st now hheld hfast hslow]
        simp

/-- Witness for C9 at the documented default `fastest_delay = 0.02 s`,
on a tick whose elapsed time since the last action is 250 ms — beyond
the 200 ms fallback threshold — the branch taken is still not the
fallback branch. -/
theorem claim9_witness :
    (scroll_list 0.02 10 50 0 true false { held := true, lastTime := 0 } 250).branch
      ≠ ScrollBranch.slow :=
  claim9_dead_branch 0.02 10 50 0 true false { held := true, lastTime := 0 } 250
    (by norm_num)

theorem setCurrentRow_empty (r : Int) : setCurrentRow 0 r = -1 := by
  simp only [setCurrentRow]
  split_ifs with h
  · omega
  · rfl

theorem setCurrentRow_left_clamp (size idx steps : Int) (hs : 0 < size)
    (h1 : 1 ≤ steps) (hidx : idx < size) :
    0 ≤ setCurrentRow size (max 0 (idx - steps))
      ∧ setCurrentRow size (max 0 (idx - steps)) < size := by
  have h0 : 0 ≤ max 0 (idx - steps) := le_max_left 0 _
  have h2 : max 0 (idx - steps) < size := max_lt hs (by omega)
  rw [setCurrentRow, if_pos ⟨h0, h2⟩]
  exact ⟨h0, h2⟩

theorem setCurrentRow_right_clamp (size idx steps : Int) (hs : 0 < size)
    (h1 : 1 ≤ steps) (hidx : -1 ≤ idx) :
    0 ≤ setCurrentRow size (min (size - 1) (idx + steps))
      ∧ setCurrentRow size (min (size - 1) (idx + steps)) < size := by
  have h0 : 0 ≤ min (size - 1) (idx + steps) := le_min (by omega) (by omega)
  have h2 : min (size - 1) (idx + steps) < size :=
    lt_of_le_of_lt (min_le_left _ _) (by omega)
  rw [setCurrentRow, if_pos ⟨h0, h2⟩]
  exact ⟨h0, h2⟩

theorem scroll_list_row_cases (fd : ℚ) (steps size idx : Int) (direction isL : Bool)
    (st : ScrollState) (now : ℚ) :
    (scroll_list fd steps size idx direction isL st now).row = idx ∨
    (scroll_list fd steps size idx direction isL st now).row
      = setCurrentRow size
          (if isL then max 0 (idx - steps) else min (size - 1) (idx + steps)) := by
  cases direction with
  | false => rw [scroll_list_release]; exact Or.inl rfl
  | true =>
    cases hheld : st.held with
    | false => rw [scroll_list_edge fd steps size idx isL st now hheld]; exact Or.inr rfl
    | true =>
      by_cases hfast : now - st.lastTime > fd * 1000
      · rw [scroll_list_fast fd steps size idx isL st now hheld hfast]
        exact Or.inr rfl
      · by_cases hslow : now - st.lastTime > 200
        · unfold scroll_list
          rw [if_pos rfl, if_neg (by rw [hheld]; decide), if_neg hfast, if_pos hslow]
          exact Or.inr rfl
        · rw [scroll_list_idle fd steps size idx isL st now hheld hfast hslow]
          exact Or.inl rfl

theorem hat_up_step_row_cases (cd : ℚ) (size idx : Int) (direction : Bool)
    (st : ScrollState) (now : ℚ) :
    (hat_up_step cd size idx direction st now).2 = idx ∨
    (hat_up_step cd size idx direction st now).2 = setCurrentRow size (max 0 (idx - 1)) := by
  unfold hat_up_step
  cases direction with
  | false => rw [if_neg (by decide)]; exact Or.inl rfl
  | true =>
    rw [if_pos rfl]
    by_cases hheld : ¬ st.held = true
    · rw [if_pos hheld]; exact Or.inr rfl
    · rw [if_neg hheld]
      by_cases hcool : now - st.lastTime ≥ cd * 1000
      · rw [if_pos hcool]; exact Or.inr rfl
      · rw [if_neg hcool]; exact Or.inl rfl

theorem hat_down_step_row_cases (cd : ℚ) (size idx : Int) (direction : Bool)
    (st : ScrollState) (now : ℚ) :
    (hat_down_step cd size idx direction st now).2 = idx ∨
    (hat_down_step cd size idx direction st now).2
      = setCurrentRow size (min (size - 1) (idx + 1)) := by
  unfold hat_down_step
  cases direction with
  | false => rw [if_neg (by decide)]; exact Or.inl rfl
  | true =>
    rw [if_pos rfl]
    by_cases hheld : ¬ st.held = true
    · rw [if_pos hheld]; exact Or.inr rfl
    · rw [if_neg hheld]
      by_cases hcool : now - st.lastTime ≥ cd * 1000
      · rw [if_pos hcool]; exact Or.inr rfl
      · rw [if_neg hcool]; exact Or.inl rfl

theorem fav_scroll_list_row_cases (cd : ℚ) (steps size idx : Int) (direction isU : Bool)
    (st : ScrollState) (now : ℚ) :
    (fav_scroll_list cd steps size idx direction isU st now).2 = idx ∨
    (fav_scroll_list cd steps size idx direction isU st now).2
      = setCurrentRow size
          (if isU then max 0 (idx - steps) else min (size - 1) (idx + steps)) := by
  unfold fav_scroll_list
  cases direction with
  | false => rw [if_neg (by decide)]; exact Or.inl rfl
  | true =>
    rw [if_pos rfl]
    by_cases hmove : ¬ st.held = true ∨ now - st.lastTime ≥ cd
    · rw [if_pos hmove]; exact Or.inr rfl
    · rw [if_neg hmove]; exact Or.inl rfl

/-- C7 (clamping and empty-list no-ops): on an empty list (size 0,
current row −1) every move of every axis/button action leaves the row at
−1 and the trigger launches nothing; on a non-empty list every move
either leaves the row unchanged (no repeat due) or lands it inside
`[0, size−1]`. -/
theorem claim7_clamp_empty :
    ((∀ (fd : ℚ) (steps : Int) (dirB isL : Bool) (st : ScrollState) (now : ℚ),
      (scroll_list fd steps 0 (-1) dirB isL st now).row = -1) ∧
    (∀ (cd : ℚ) (dirB : Bool) (st : ScrollState) (now : ℚ),
      (hat_up_step cd 0 (-1) dirB st now).2 = -1 ∧
        (hat_down_step cd 0 (-1) dirB st now).2 = -1) ∧
    (∀ (cd : ℚ) (steps : Int) (dirB isU : Bool) (st : ScrollState) (now : ℚ),
      (fav_scroll_list cd steps 0 (-1) dirB isU st now).2 = -1) ∧
    (button_up_action 0 (-1) = -1 ∧ button_down_action 0 (-1) = -1) ∧
    (∀ i : Int, launch_selected_rom [] i = none)) ∧
    ((∀ (fd : ℚ) (steps size idx : Int) (dirB isL : Bool) (st : ScrollState) (now : ℚ),
      0 < size → 1 ≤ steps → -1 ≤ idx → idx < size →
      (scroll_list fd steps size idx dirB isL st now).row = idx ∨
        (0 ≤ (scroll_list fd steps size idx dirB isL st now).row ∧
          (scroll_list fd steps size idx dirB isL st now).row < size)) ∧
    (∀ (cd : ℚ) (size idx : Int) (dirB : Bool) (st : ScrollState) (now : ℚ),
      0 < size → -1 ≤ idx → idx < size →
      ((hat_up_step cd size idx dirB st now).2 = idx ∨
        (0 ≤ (hat_up_step cd size idx dirB st now).2 ∧
          (hat_up_step cd size idx dirB st now).2 < size)) ∧
      ((hat_down_step cd size idx dirB st now).2 = idx ∨
        (0 ≤ (hat_down_step cd size idx dirB st now).2 ∧
          (hat_down_step cd size idx dirB st now).2 < size))) ∧
    (∀ (cd : ℚ) (steps size idx : Int) (dirB isU : Bool) (st : ScrollState) (now : ℚ),
      0 < size → 1 ≤ steps → -1 ≤ idx → idx < size →
      (fav_scroll_list cd steps size idx dirB isU st now).2 = idx ∨
        (0 ≤ (fav_scroll_list cd steps size idx dirB isU st now).2 ∧
          (fav_scroll_list cd steps size idx dirB isU st now).2 < size)) ∧
    (∀ size cur : Int, 0 < size → -1 ≤ cur → cur < size →
      (0 ≤ button_up_action size cur ∧ button_up_action size cur < size) ∧
      (0 ≤ button_down_action size cur ∧ button_down_action size cur < size))) := by
  constructor
  · refine ⟨?_, ?_, ?_, ?_, ?_⟩
    · intro fd steps dirB isL st now
      rcases scroll_list_row_cases fd steps 0 (-1) dirB isL st now with h | h
      · exact h
      · rw [h, setCurrentRow_empty]
    · intro cd dirB st now
      constructor
      · rcases hat_up_step_row_cases cd 0 (-1) dirB st now with h | h
        · exact h
        · rw [h, setCurrentRow_empty]
      · rcases hat_down_step_row_cases cd 0 (-1) dirB st now with h | h
        · exact h
        · rw [h, setCurrentRow_empty]
    · intro cd steps dirB isU st now
      rcases fav_scroll_list_row_cases cd steps 0 (-1) dirB isU st now with h | h
      · exact h
      · rw [h, setCurrentRow_empty]
    · exact ⟨by rw [button_up_action, setCurrentRow_empty],
        by rw [button_down_action, setCurrentRow_empty]⟩
    · intro i
      simp [launch_selected_rom]
  · refine ⟨?_, ?_, ?_, ?_⟩
    · intro fd steps size idx dirB isL st now hs hst hi1 hi2
      rcases scroll_list_row_cases fd steps size idx dirB isL st now with h | h
      · exact Or.inl h
      · refine Or.inr ?_
        rw [h]
        cases isL with
        | true => simpa using setCurrentRow_left_clamp size idx steps hs hst hi2
        | false => simpa using setCurrentRow_right_clamp size idx steps hs hst hi1
    · intro cd size idx dirB st now hs hi1 hi2
      constructor
      · rcases hat_up_step_row_cases cd size idx dirB st now with h | h
        · exact Or.inl h
        · exact Or.inr (h ▸ setCurrentRow_left_clamp size idx 1 hs le_rfl hi2)
      · rcases hat_down_step_row_cases cd size idx dirB st now with h | h
        · exact Or.inl h
        · exact Or.inr (h ▸ setCurrentRow_right_clamp size idx 1 hs le_rfl hi1)
    · intro cd steps size idx dirB isU st now hs hst hi1 hi2
      rcases fav_scroll_list_row_cases cd steps size idx dirB isU st now with h | h
      · exact Or.inl h
      · refine Or.inr ?_
        rw [h]
        cases isU with
        | true => simpa using setCurrentRow_left_clamp size idx steps hs hst hi2
        | false => simpa using setCurrentRow_right_clamp size idx steps hs hst hi1
    · intro size cur hs hc1 hc2
      exact ⟨setCurrentRow_left_clamp size cur 1 hs le_rfl hc2,
        setCurrentRow_right_clamp size cur 1 hs le_rfl hc1⟩

/-- Witness for C7: empty-list no-ops at one concrete tick, and an
in-range constraint for a concrete move on a 5-item list. -/
theorem claim7_witness :
    (scroll_list 0.02 10 0 (-1) true true { held := false, lastTime := 0 } 0).row = -1 ∧
    launch_selected_rom [] 0 = none ∧
    ((scroll_list 0.02 10 5 2 true true { held := false, lastTime := 0 } 0).row = 2 ∨
      (0 ≤ (scroll_list 0.02 10 5 2 true true { held := false, lastTime := 0 } 0).row ∧
        (scroll_list 0.02 10 5 2 true true { held := false, lastTime := 0 } 0).row < 5)) :=
  ⟨claim7_clamp_empty.1.1 0.02 10 true true { held := false, lastTime := 0 } 0,
    claim7_clamp_empty.1.2.2.2.2 0,
    claim7_clamp_empty.2.1 0.02 10 5 2 true true { held := false, lastTime := 0 } 0
      (by norm_num) (by norm_num) (by norm_num) (by norm_num)⟩

end FBNeo
